import Mathlib

/-!
Verification of the PropPulse risk-scoring subsystem against its specification.

The underwriter dashboard (`generateIrrDistribution`, `generateHeatMapData`,
`handleFilterChange`) is embedded directly from the frontend source.  The
backend risk engine (RiskDataIngestor, MonteCarloIRRAgent, RiskScoreComposer,
AlertAgent, CSV export) is not part of the source tree, so those components
are modelled from the specification; each such definition carries a
`Modelled from the spec:` doc comment.  Numeric values are rationals.
-/

namespace Dashboard

/-- One bin of the IRR distribution chart, as pushed by
`generateIrrDistribution` (fields are scaled to percentages, as in the
source). -/
structure DistBin where
  irr : ℚ
  frequency : ℚ
  binStart : ℚ
  binEnd : ℚ
deriving DecidableEq

/-- Embedding of `generateIrrDistribution` from the underwriter dashboard:
`binSize = (p95 - p5) / 20`, `startValue = p5 - binSize`, and for each
histogram index `i` a bin `[startValue + i*binSize, startValue + (i+1)*binSize]`
scaled by 100. -/
def generateIrrDistribution (histogram : List ℚ) (p5 p95 : ℚ) : List DistBin :=
  let binSize := (p95 - p5) / 20
  let startValue := p5 - binSize
  (List.range histogram.length).map fun (i : ℕ) =>
    let binStart := startValue + (i : ℚ) * binSize
    let binEnd := binStart + binSize
    let binCenter := (binStart + binEnd) / 2
    { irr := binCenter * 100
      frequency := histogram.getD i 0
      binStart := binStart * 100
      binEnd := binEnd * 100 }

/-- A property row as consumed by the dashboard (tower, floor, unit type,
risk grade, unit position, risk metrics). -/
structure PropertyUnit where
  id : String
  tower : String
  floor : Int
  unit_type : String
  risk_grade : String
  unit_position : ℕ
  mean_irr : ℚ
  var_5 : ℚ
deriving DecidableEq

/-- The dashboard's filter state: `tower`, `floor`, `unitType`, `riskGrade`,
each either "all" or a selected value (the UI collects all four). -/
structure FilterState where
  tower : String
  floor : String
  unitType : String
  riskGrade : String
deriving DecidableEq

/-- Which filter a `handleFilterChange` call updates. -/
inductive FilterName
  | tower
  | floor
  | unitType
  | riskGrade
deriving DecidableEq

/-- Embedding of `handleFilterChange`: replaces the named filter value,
keeping the others. -/
def handleFilterChange (filters : FilterState) : FilterName → String → FilterState
  | .tower, v => { filters with tower := v }
  | .floor, v => { filters with floor := v }
  | .unitType, v => { filters with unitType := v }
  | .riskGrade, v => { filters with riskGrade := v }

/-- The filtering stage of `generateHeatMapData`: successively filters by
tower, unit type and risk grade when each is not "all".  The source applies
no filter for `filters.floor`. -/
def filteredProperties (properties : List PropertyUnit) (filters : FilterState) :
    List PropertyUnit :=
  let f1 := if filters.tower ≠ "all"
    then properties.filter fun p => p.tower == filters.tower else properties
  let f2 := if filters.unitType ≠ "all"
    then f1.filter fun p => p.unit_type == filters.unitType else f1
  if filters.riskGrade ≠ "all"
    then f2.filter fun p => p.risk_grade == filters.riskGrade else f2

/-- One cell of the heat map. -/
structure HeatCell where
  id : String
  value : Option ℚ
  riskGrade : Option String
  meanIrr : Option ℚ
  var5 : Option ℚ
  unitNo : Option String
deriving DecidableEq

/-- One floor row of the heat map. -/
structure FloorRow where
  floor : Int
  units : List HeatCell
deriving DecidableEq

/-- The cell value assigned by `generateHeatMapData` to an occupied slot:
100 for grade "green", 50 for "amber", 0 otherwise. -/
def gradeValue (g : String) : ℚ :=
  if g == "green" then 100 else if g == "amber" then 50 else 0

/-- The heat-map cell built for a found unit. -/
def occupiedCell (u : PropertyUnit) : HeatCell :=
  { id := u.id
    value := some (gradeValue u.risk_grade)
    riskGrade := some u.risk_grade
    meanIrr := some u.mean_irr
    var5 := some u.var_5
    unitNo := some u.id }

/-- The heat-map cell built for an empty slot: every data field is null. -/
def emptyCell (floor : Int) (position : ℕ) : HeatCell :=
  { id := "empty-" ++ toString floor ++ "-" ++ toString position
    value := none
    riskGrade := none
    meanIrr := none
    var5 := none
    unitNo := none }

/-- The lookup `filteredProperties.find(p => p.floor === floor && p.unit_position === position)`. -/
def findUnit (ps : List PropertyUnit) (floor : Int) (position : ℕ) : Option PropertyUnit :=
  ps.find? fun p => p.floor == floor && p.unit_position == position

/-- Builds one heat-map cell: the occupied cell when a unit is found at the
slot, the all-null empty cell otherwise. -/
def buildCell (ps : List PropertyUnit) (floor : Int) (position : ℕ) : HeatCell :=
  match findUnit ps floor position with
  | some u => occupiedCell u
  | none => emptyCell floor position

/-- Embedding of `generateHeatMapData`: filter the properties, collect the
distinct floors (descending) and distinct unit positions (ascending) of the
filtered list, and build a cell for every (floor, position) slot. -/
def generateHeatMapData (properties : List PropertyUnit) (filters : FilterState) :
    List FloorRow :=
  let filtered := filteredProperties properties filters
  let uniqueFloors := ((filtered.map (·.floor)).dedup).insertionSort fun a b => b ≤ a
  let uniquePositions := ((filtered.map (·.unit_position)).dedup).insertionSort fun a b => a ≤ b
  uniqueFloors.map fun floor =>
    { floor := floor, units := uniquePositions.map (buildCell filtered floor) }

end Dashboard

/-- The discrete risk grade enum of the spec. -/
inductive RiskGrade
  | GREEN
  | AMBER
  | RED
deriving DecidableEq

namespace RiskScoreComposer

/-- Modelled from the spec: `RiskScoreComposer.grade` (the composer's code is
not in the source tree).  Rules evaluated in order, thresholds inclusive:
GREEN if `prob_negative_irr ≤ 0.10` and `developer_risk_score ≤ 2`; AMBER if
not GREEN and `prob_negative_irr ≤ 0.25`; RED otherwise. -/
def grade (prob_negative_irr : ℚ) (developer_risk_score : ℕ) : RiskGrade :=
  if prob_negative_irr ≤ 10 / 100 ∧ developer_risk_score ≤ 2 then .GREEN
  else if prob_negative_irr ≤ 25 / 100 then .AMBER
  else .RED

end RiskScoreComposer

/-- An alert event: property, nullable previous grade, new grade. -/
structure AlertEvent where
  property_id : String
  previous_grade : Option RiskGrade
  new_grade : RiskGrade
deriving DecidableEq

namespace AlertAgent

/-- Modelled from the spec: `AlertAgent.check` (the agent's code is not in
the source tree).  The state is the last alerted grade for the property,
`none` standing for the implicit UNSET initial state.  If the new grade
differs from the last alerted grade, an AlertEvent is created and the marker
is updated; otherwise nothing is returned and the marker is unchanged. -/
def check (property_id : String) (last_alerted : Option RiskGrade)
    (new_grade : RiskGrade) : Option AlertEvent × Option RiskGrade :=
  if last_alerted ≠ some new_grade then
    (some { property_id := property_id, previous_grade := last_alerted,
            new_grade := new_grade }, some new_grade)
  else
    (none, last_alerted)

/-- Sequential processing of a list of grade computations for one property,
collecting the AlertEvents that `check` returns. -/
def checkSeq (property_id : String) (last_alerted : Option RiskGrade) :
    List RiskGrade → List AlertEvent
  | [] => []
  | g :: gs =>
    match check property_id last_alerted g with
    | (some e, st) => e :: checkSeq property_id st gs
    | (none, st) => checkSeq property_id st gs

end AlertAgent

/-- The unique identity of a market metric: (source, region, metric_type,
observed_at). -/
structure MetricKey where
  source : String
  region : String
  metric_type : String
  observed_at : ℕ
deriving DecidableEq

/-- A normalized market metric record. -/
structure MarketMetric where
  key : MetricKey
  value : ℚ
deriving DecidableEq

/-- Modelled from the spec: MetricStore, a time-series store keyed by
(source, region, metric_type, observed_at); at most one record per key. -/
def MetricStore : Type := MetricKey → Option MarketMetric

/-- The empty metric store. -/
def emptyStore : MetricStore := fun _ => none

/-- Modelled from the spec: idempotent upsert into MetricStore — re-ingesting
an existing key overwrites the stored record rather than duplicating it. -/
def upsert (s : MetricStore) (m : MarketMetric) : MetricStore :=
  fun k => if k = m.key then some m else s k

/-- Upserts a batch of records, in order. -/
def upsertAll (s : MetricStore) (ms : List MarketMetric) : MetricStore :=
  ms.foldl upsert s

/-- A raw observation fetched from an external market-data source. -/
structure RawObservation where
  region : String
  metric_type : String
  observed_at : ℕ
  value : ℚ
deriving DecidableEq

/-- A date range for an ingestion request. -/
structure DateRange where
  start_date : ℕ
  end_date : ℕ
deriving DecidableEq

/-- Modelled from the spec: a market-data source with a fallible `fetch`;
a timeout or malformed payload surfaces as `Except.error`. -/
structure Source where
  name : String
  fetch : String → DateRange → Except String (List RawObservation)

/-- Normalizes a raw observation from a given source into a MarketMetric. -/
def normalizeObs (src : Source) (o : RawObservation) : MarketMetric :=
  { key := { source := src.name, region := o.region,
             metric_type := o.metric_type, observed_at := o.observed_at }
    value := o.value }

/-- The per-source outcome report of an ingestion run. -/
structure IngestReport where
  successes : List String
  failures : List (String × String)
deriving DecidableEq

namespace RiskDataIngestor

/-- Processing of a single source during ingestion: a failure is recorded in
the report and leaves the store untouched; a success upserts every
normalized record. -/
def ingestOne (region : String) (dr : DateRange)
    (acc : IngestReport × MetricStore) (src : Source) : IngestReport × MetricStore :=
  match src.fetch region dr with
  | .error e =>
    ({ acc.1 with failures := acc.1.failures ++ [(src.name, e)] }, acc.2)
  | .ok obs =>
    ({ acc.1 with successes := acc.1.successes ++ [src.name] },
     upsertAll acc.2 (obs.map (normalizeObs src)))

/-- Modelled from the spec: `RiskDataIngestor.ingest` (the ingestor's code is
not in the source tree).  Each source is fetched independently; failures are
recorded per source and do not abort the others; successful rows are
upserted keyed by (source, region, metric_type, observed_at). -/
def ingest (sources : List Source) (region : String) (dr : DateRange)
    (s : MetricStore) : IngestReport × MetricStore :=
  sources.foldl (ingestOne region dr) (⟨[], []⟩, s)

/-- The normalized records contributed by the sources that succeed. -/
def successRows (sources : List Source) (region : String) (dr : DateRange) :
    List MarketMetric :=
  (sources.map fun src =>
    match src.fetch region dr with
    | .ok obs => obs.map (normalizeObs src)
    | .error _ => []).flatten

/-- The per-source failures of an ingestion run, in source order. -/
def failuresOf (sources : List Source) (region : String) (dr : DateRange) :
    List (String × String) :=
  sources.filterMap fun src =>
    match src.fetch region dr with
    | .error e => some (src.name, e)
    | .ok _ => none

/-- The names of the sources that succeed, in source order. -/
def successesOf (sources : List Source) (region : String) (dr : DateRange) :
    List String :=
  sources.filterMap fun src =>
    match src.fetch region dr with
    | .ok _ => some src.name
    | .error _ => none

end RiskDataIngestor

/-- The record at key `k` after replaying a batch of upserts: the last
record of the batch with key `k`, if any. -/
def lastWith (ms : List MarketMetric) (k : MetricKey) : Option MarketMetric :=
  ms.reverse.find? fun m => m.key == k

/-- Modelled from the spec: the parameterized stochastic cash-flow model
produced by CashFlowModelBuilder (transient, read-only input to a run). -/
structure CashFlowModel where
  property_id : ℕ
  purchase_price : ℚ
  base_adr : ℚ
  base_occupancy : ℚ
  service_charge_rate : ℚ
  appreciation_mean : ℚ
  appreciation_stdev : ℚ
  horizon_years : ℕ
deriving DecidableEq

/-- A 64-bit linear-congruential step; all PRNG state is explicit. -/
def lcgNext (s : ℕ) : ℕ :=
  (s * 6364136223846793005 + 1442695040888963407) % 2 ^ 64

/-- Draws one uniform sample in `[0, 1)` from an explicit PRNG state,
returning the advanced state. -/
def unitSample (s : ℕ) : ℕ × ℚ :=
  let t := lcgNext s
  (t, (t : ℚ) / 2 ^ 64)

/-- Modelled from the spec: the independent random stream of trial `i` is
derived only from `(seed, property_id, trial_index)`, never from global
mutable RNG state. -/
def streamInit (seed property_id trial_index : ℕ) : ℕ :=
  lcgNext (lcgNext (lcgNext (seed % 2 ^ 64) + property_id) + trial_index)

namespace MonteCarloIRRAgent

/-- Modelled from the spec: the yearly cash-flow loop of one trial.  Each
year samples ADR growth, occupancy and vacancy from the trial's stream and
contributes the net operating income (gross rental income minus service
charge minus vacancy loss).  Returns the flows together with the final PRNG
state.  (The spec leaves the distribution shapes open; uniform-derived
samples are used.) -/
def yearFlows (m : CashFlowModel) : ℕ → ℕ → ℚ → List ℚ × ℕ
  | 0, s, _ => ([], s)
  | y + 1, s, adr =>
    let g := unitSample s
    let growth := m.appreciation_mean + (g.2 - 1 / 2) * m.appreciation_stdev
    let adr1 := adr * (1 + growth)
    let o := unitSample g.1
    let occupancy := m.base_occupancy * (1 / 2 + o.2 / 2)
    let v := unitSample o.1
    let gross := adr1 * 365 * occupancy
    let service := m.service_charge_rate * gross
    let vacancy_loss := adr1 * 365 * (v.2 / 10)
    let noi := gross - service - vacancy_loss
    let rest := yearFlows m y v.1 adr1
    (noi :: rest.1, rest.2)

/-- Adds the terminal sale proceeds to the final year's cash flow. -/
def addTerminal (t : ℚ) : List ℚ → List ℚ
  | [] => [t]
  | [x] => [x + t]
  | x :: y :: rest => x :: addTerminal t (y :: rest)

/-- Modelled from the spec: the cash-flow series of trial `i` — year-0
outflow is the purchase price, years `1..horizon` contribute net operating
income, and the final year adds a sampled terminal sale outcome. -/
def trialCashFlows (m : CashFlowModel) (seed i : ℕ) : List ℚ :=
  let s0 := streamInit seed m.property_id i
  let yearly := yearFlows m m.horizon_years s0 m.base_adr
  let t := unitSample yearly.2
  let terminal :=
    m.purchase_price *
      (1 + m.appreciation_mean + (t.2 - 1 / 2) * m.appreciation_stdev) ^ m.horizon_years
  addTerminal terminal (-m.purchase_price :: yearly.1)

/-- Net present value of a cash-flow series at discount rate `r`. -/
def npv (cfs : List ℚ) (r : ℚ) : ℚ :=
  (cfs.enum.map fun p => p.2 / (1 + r) ^ p.1).sum

/-- Bracketed bisection root-finder for NPV, with a fixed iteration count. -/
def bisect (cfs : List ℚ) : ℕ → ℚ → ℚ → ℚ
  | 0, lo, hi => (lo + hi) / 2
  | n + 1, lo, hi =>
    let mid := (lo + hi) / 2
    if npv cfs lo * npv cfs mid ≤ 0 then bisect cfs n lo mid
    else bisect cfs n mid hi

/-- Modelled from the spec: IRR extraction via a bracketed numerical root
finder seeded from the wide bracket `[-0.99, 10]` with a fixed iteration
budget; if NPV has no sign change across the bracket the trial has no IRR. -/
def solveIrr (cfs : List ℚ) : Option ℚ :=
  if npv cfs (-(99 / 100)) * npv cfs 10 < 0 then
    some (bisect cfs 48 (-(99 / 100)) 10)
  else none

/-- The outcome of one Monte Carlo trial: a valid IRR, or an invalid marker
recording whether the trial's cash-flow pattern was loss-making. -/
inductive TrialResult
  | valid (irr : ℚ)
  | invalid (negative : Bool)
deriving DecidableEq

/-- Modelled from the spec: one full trial — build the trial's cash flows
from its own stream and extract the IRR; a trial with no bracketed root is
invalid, and its cash-flow sign still feeds `prob_negative_irr`. -/
def trialOutcome (m : CashFlowModel) (seed i : ℕ) : TrialResult :=
  let cfs := trialCashFlows m seed i
  match solveIrr cfs with
  | some r => .valid r
  | none => .invalid (decide (cfs.sum < 0))

/-- The valid-trial IRRs of a list of trial outcomes, in trial order. -/
def validIrrs (rs : List TrialResult) : List ℚ :=
  rs.filterMap fun r =>
    match r with
    | .valid x => some x
    | .invalid _ => none

/-- The number of invalid trials. -/
def invalidTrialCount (rs : List TrialResult) : ℕ :=
  rs.countP fun r =>
    match r with
    | .invalid _ => true
    | .valid _ => false

/-- The number of negative outcomes: valid trials with IRR below zero plus
invalid trials whose cash-flow pattern was loss-making. -/
def negativeCount (rs : List TrialResult) : ℕ :=
  rs.countP fun r =>
    match r with
    | .valid x => decide (x < 0)
    | .invalid negative => negative

/-- The sorted valid-trial IRR list used by the aggregation step. -/
def sortedIrrs (rs : List TrialResult) : List ℚ :=
  (validIrrs rs).insertionSort fun a b => a ≤ b

/-- Linear interpolation between the order statistics bracketing a
fractional index `pos` of a sample (the last value is used beyond the right
end). -/
def interpAt (xs : List ℚ) (pos : ℚ) : ℚ :=
  let i := (⌊pos⌋).toNat
  let lo := xs.getD i 0
  let hi := xs.getD (i + 1) lo
  lo + (pos - (i : ℚ)) * (hi - lo)

/-- Modelled from the spec: percentile of a sorted sample by linear
interpolation between order statistics. -/
def percentileOf (xs : List ℚ) (p : ℚ) : ℚ :=
  interpAt xs (p * ((xs.length : ℚ) - 1))

/-- The five reported percentiles of a SimulationRun. -/
structure Percentiles where
  p5 : ℚ
  p25 : ℚ
  p50 : ℚ
  p75 : ℚ
  p95 : ℚ
deriving DecidableEq

/-- The percentile summary of a sorted IRR sample. -/
def percentilesOf (xs : List ℚ) : Percentiles :=
  { p5 := percentileOf xs (5 / 100)
    p25 := percentileOf xs (25 / 100)
    p50 := percentileOf xs (50 / 100)
    p75 := percentileOf xs (75 / 100)
    p95 := percentileOf xs (95 / 100) }

/-- Modelled from the spec: the histogram over 20 equal-width bins spanning
the 5th-to-95th-percentile range. -/
def histogramOf (xs : List ℚ) (lo hi : ℚ) : List ℕ :=
  let w := (hi - lo) / 20
  (List.range 20).map fun (i : ℕ) =>
    xs.countP fun x => decide (lo + (i : ℚ) * w ≤ x ∧ x < lo + ((i : ℚ) + 1) * w)

/-- The aggregates of a SimulationRun (mean IRR, percentiles, probability of
negative IRR, histogram, invalid-trial count). -/
structure SimulationRunAgg where
  trial_count : ℕ
  mean_irr : ℚ
  percentiles : Percentiles
  prob_negative_irr : ℚ
  histogram : List ℕ
  invalid_trial_count : ℕ
deriving DecidableEq

/-- Modelled from the spec: the single deterministic reduction step run
after all trials complete. -/
def aggregate (trial_count : ℕ) (rs : List TrialResult) : SimulationRunAgg :=
  let xs := sortedIrrs rs
  let ps := percentilesOf xs
  { trial_count := trial_count
    mean_irr := xs.sum / (xs.length : ℚ)
    percentiles := ps
    prob_negative_irr := (negativeCount rs : ℚ) / (trial_count : ℚ)
    histogram := histogramOf xs ps.p5 ps.p95
    invalid_trial_count := invalidTrialCount rs }

/-- Modelled from the spec: `MonteCarloIRRAgent.run`.  `order` is the order
in which the worker pool happens to complete the trials of
`[0, trial_count)`; every trial is the pure function `trialOutcome` of
`(model, seed, trial_index)`, and the results are merged by the single
deterministic reduction `aggregate`. -/
def run (m : CashFlowModel) (trial_count seed : ℕ) (order : List ℕ) :
    SimulationRunAgg :=
  aggregate trial_count (order.map (trialOutcome m seed))

end MonteCarloIRRAgent

/-- One exported CSV row of a persisted trial. -/
structure TrialRow where
  trial_index : ℕ
  irr : Option ℚ
  npv : ℚ
  terminal_value : ℚ
  valid : Bool
deriving DecidableEq

/-- A persisted SimulationRun's per-trial data, as read by the CSV export. -/
structure PersistedRun where
  run_id : ℕ
  trials : List TrialRow
deriving DecidableEq

/-- The CSV header row of `export_csv`. -/
def csvHeader : String := "trial_index,irr,npv,terminal_value,valid"

/-- Renders one trial as a CSV row. -/
def csvRow (r : TrialRow) : String :=
  toString r.trial_index ++ "," ++
    (match r.irr with
     | some x => toString x
     | none => "") ++ "," ++
    toString r.npv ++ "," ++
    toString r.terminal_value ++ "," ++
    (if r.valid then "true" else "false")

/-- The lines of the CSV export: the header row followed by exactly one row
per trial. -/
def exportCsvLines (run : PersistedRun) : List String :=
  csvHeader :: run.trials.map csvRow

/-- Modelled from the spec: `export_csv(run_id) -> bytes`, the header row
followed by one row per trial, newline-separated. -/
def export_csv (run : PersistedRun) : String :=
  String.intercalate "\n" (exportCsvLines run)

/-- A concrete cash-flow model used to instantiate the determinism theorem. -/
def sampleModel : CashFlowModel :=
  { property_id := 611
    purchase_price := 1000000
    base_adr := 850
    base_occupancy := 85 / 100
    service_charge_rate := 12 / 100
    appreciation_mean := 4 / 100
    appreciation_stdev := 2 / 100
    horizon_years := 10 }

/-- A concrete source whose fetch times out, for the failure-isolation
scenario. -/
def srcTimeout : Source :=
  { name := "dxb_rents", fetch := fun _ _ => .error "timeout" }

/-- The observations served by the succeeding source of the
failure-isolation scenario. -/
def okObservations : List RawObservation :=
  [ { region := "DXB", metric_type := "adr", observed_at := 1, value := 900 },
    { region := "DXB", metric_type := "adr", observed_at := 2, value := 910 } ]

/-- A concrete source whose fetch succeeds, for the failure-isolation
scenario. -/
def srcOk : Source :=
  { name := "dxb_str", fetch := fun _ _ => .ok okObservations }

/-- The ingestion window of the failure-isolation scenario. -/
def sampleRange : DateRange := { start_date := 1, end_date := 2 }

/-- A persisted 5000-trial run used to instantiate the CSV-export theorem. -/
def run5000 : PersistedRun :=
  { run_id := 1
    trials := List.replicate 5000
      { trial_index := 0, irr := none, npv := 0, terminal_value := 0, valid := false } }

/-- A concrete property row used to instantiate the heat-map theorems. -/
def sampleUnit : Dashboard.PropertyUnit :=
  { id := "UNO-611"
    tower := "UNO"
    floor := 6
    unit_type := "1BR"
    risk_grade := "green"
    unit_position := 1
    mean_irr := 12 / 100
    var_5 := 2 / 100 }

/-- The all-pass filter state. -/
def allFilters : Dashboard.FilterState :=
  { tower := "all", floor := "all", unitType := "all", riskGrade := "all" }

/-- The all-pass filter state with a floor selected: it differs from
`allFilters` only in the `floor` field. -/
def floorFilters : Dashboard.FilterState :=
  { tower := "all", floor := "6", unitType := "all", riskGrade := "all" }

/-- Reading an element of a mapped range by index. -/
theorem getD_map_range {α : Type} (f : ℕ → α) (n i : ℕ) (d : α) (h : i < n) :
    ((List.range n).map f).getD i d = f i := by
  simp [List.getD_eq_getElem?_getD, List.getElem?_map, List.getElem?_range h]

/-- C2: `grade` returns GREEN iff `prob_negative_irr ≤ 0.10` and
`developer_risk_score ≤ 2`; otherwise AMBER iff `prob_negative_irr ≤ 0.25`;
otherwise RED — rules evaluated in that order with inclusive thresholds, as
a pure function of the pair, for every score in `0..4`. -/
theorem grade_rule_characterization (p : ℚ) (d : ℕ) (_hd : d ≤ 4) :
    (RiskScoreComposer.grade p d = .GREEN ↔ p ≤ 10 / 100 ∧ d ≤ 2) ∧
    (RiskScoreComposer.grade p d = .AMBER ↔
      ¬(p ≤ 10 / 100 ∧ d ≤ 2) ∧ p ≤ 25 / 100) ∧
    (RiskScoreComposer.grade p d = .RED ↔
      ¬(p ≤ 10 / 100 ∧ d ≤ 2) ∧ ¬p ≤ 25 / 100) := by
  unfold RiskScoreComposer.grade
  split_ifs with h1 h2 <;> simp_all

/-- Instantiation of the grading rule at a concrete input. -/
theorem grade_rule_characterization_witness :
    (0 : ℕ) ≤ 4 ∧
    ((RiskScoreComposer.grade 0 0 = .GREEN ↔ (0 : ℚ) ≤ 10 / 100 ∧ (0 : ℕ) ≤ 2) ∧
     (RiskScoreComposer.grade 0 0 = .AMBER ↔
       ¬((0 : ℚ) ≤ 10 / 100 ∧ (0 : ℕ) ≤ 2) ∧ (0 : ℚ) ≤ 25 / 100) ∧
     (RiskScoreComposer.grade 0 0 = .RED ↔
       ¬((0 : ℚ) ≤ 10 / 100 ∧ (0 : ℕ) ≤ 2) ∧ ¬(0 : ℚ) ≤ 25 / 100)) :=
  ⟨by decide, grade_rule_characterization 0 0 (by decide)⟩

/-- C3 counterexample: starting from the implicit UNSET state, the grade
sequence [GREEN, GREEN, AMBER, AMBER, RED] produces three AlertEvents, not
two — the first computed grade already differs from UNSET. -/
theorem checkSeq_five_grades_not_two :
    (AlertAgent.checkSeq "P-1" none
      [.GREEN, .GREEN, .AMBER, .AMBER, .RED]).length ≠ 2 ∧
    (AlertAgent.checkSeq "P-1" none
      [.GREEN, .GREEN, .AMBER, .AMBER, .RED]).length = 3 := by
  refine ⟨?_, rfl⟩
  decide

/-- C3 (amended): `check` returns an AlertEvent exactly when the new grade
differs from the last alerted grade, and the sequence
[GREEN, GREEN, AMBER, AMBER, RED] processed from UNSET produces exactly
three AlertEvents: UNSET→GREEN, GREEN→AMBER and AMBER→RED. -/
theorem check_alert_exactly_on_transition :
    (∀ (pid : String) (last : Option RiskGrade) (g : RiskGrade),
      ((AlertAgent.check pid last g).1 ≠ none ↔ last ≠ some g) ∧
      (last ≠ some g →
        (AlertAgent.check pid last g).1 =
          some { property_id := pid, previous_grade := last, new_grade := g })) ∧
    AlertAgent.checkSeq "P-1" none [.GREEN, .GREEN, .AMBER, .AMBER, .RED] =
      [ { property_id := "P-1", previous_grade := none, new_grade := .GREEN },
        { property_id := "P-1", previous_grade := some .GREEN, new_grade := .AMBER },
        { property_id := "P-1", previous_grade := some .AMBER, new_grade := .RED } ] := by
  constructor
  · intro pid last g
    unfold AlertAgent.check
    split_ifs with h <;> simp [h]
  · decide

/-- Instantiation of the alert-on-transition rule at a concrete input. -/
theorem check_alert_exactly_on_transition_witness :
    (AlertAgent.check "P-1" none .GREEN).1 =
      some { property_id := "P-1", previous_grade := none, new_grade := .GREEN } :=
  (check_alert_exactly_on_transition.1 "P-1" none .GREEN).2 (by decide)

/-- C1 counterexample: for a 20-bin histogram with `p5 = 0` and `p95 = 2`,
the first bin's lower edge produced by `generateIrrDistribution` is
`-10` (percent scale), not `p5 * 100 = 0`: the bins start one bin width
below the 5th percentile. -/
theorem generateIrrDistribution_first_edge_not_p5 :
    ((Dashboard.generateIrrDistribution (List.replicate 20 1) 0 2).getD 0
        { irr := 0, frequency := 0, binStart := 0, binEnd := 0 }).binStart = -10 ∧
    (-10 : ℚ) ≠ 0 * 100 := by
  constructor
  · rw [Dashboard.generateIrrDistribution]
    rw [getD_map_range _ _ _ _ (by simp)]
    norm_num
  · norm_num

/-- C1 (amended): `generateIrrDistribution` produces one bin per histogram
entry, all of width `(p95 - p5)/20`; bin `i` spans
`[p5 + (i-1)·w, p5 + i·w]` (percent scale), so with 20 bins the union spans
the window `[p5 - w, p95 - w]` — a range of total width `p95 - p5` shifted
one bin width below the 5th percentile, with first lower edge `p5 - w` and
last upper edge `p95 - w` rather than `p5` and `p95`. -/
theorem generateIrrDistribution_bins (hist : List ℚ) (p5 p95 : ℚ)
    (hlen : hist.length = 20) (_hle : p5 ≤ p95) :
    (Dashboard.generateIrrDistribution hist p5 p95).length = 20 ∧
    (∀ i : ℕ, i < 20 →
      ((Dashboard.generateIrrDistribution hist p5 p95).getD i
          { irr := 0, frequency := 0, binStart := 0, binEnd := 0 }).binStart =
        (p5 + ((i : ℚ) - 1) * ((p95 - p5) / 20)) * 100 ∧
      ((Dashboard.generateIrrDistribution hist p5 p95).getD i
          { irr := 0, frequency := 0, binStart := 0, binEnd := 0 }).binEnd =
        (p5 + (i : ℚ) * ((p95 - p5) / 20)) * 100) ∧
    ((Dashboard.generateIrrDistribution hist p5 p95).getD 0
        { irr := 0, frequency := 0, binStart := 0, binEnd := 0 }).binStart =
      (p5 - (p95 - p5) / 20) * 100 ∧
    ((Dashboard.generateIrrDistribution hist p5 p95).getD 19
        { irr := 0, frequency := 0, binStart := 0, binEnd := 0 }).binEnd =
      (p95 - (p95 - p5) / 20) * 100 := by
  have edge : ∀ i : ℕ, i < 20 →
      ((Dashboard.generateIrrDistribution hist p5 p95).getD i
          { irr := 0, frequency := 0, binStart := 0, binEnd := 0 }).binStart =
        (p5 + ((i : ℚ) - 1) * ((p95 - p5) / 20)) * 100 ∧
      ((Dashboard.generateIrrDistribution hist p5 p95).getD i
          { irr := 0, frequency := 0, binStart := 0, binEnd := 0 }).binEnd =
        (p5 + (i : ℚ) * ((p95 - p5) / 20)) * 100 := by
    intro i hi
    rw [Dashboard.generateIrrDistribution]
    rw [getD_map_range _ _ _ _ (by rw [hlen]; exact hi)]
    constructor
    · show (p5 - (p95 - p5) / 20 + (i : ℚ) * ((p95 - p5) / 20)) * 100 = _
      ring
    · show (p5 - (p95 - p5) / 20 + (i : ℚ) * ((p95 - p5) / 20) + (p95 - p5) / 20) * 100 = _
      ring

  refine ⟨by simp [Dashboard.generateIrrDistribution, hlen], edge, ?_, ?_⟩
  · rw [(edge 0 (by norm_num)).1]
    ring
  · rw [(edge 19 (by norm_num)).2]
    ring

/-- Instantiation of the bin-layout theorem at a concrete histogram. -/
theorem generateIrrDistribution_bins_witness :
    (List.replicate 20 (1 : ℚ)).length = 20 ∧ (0 : ℚ) ≤ 2 ∧
    (Dashboard.generateIrrDistribution (List.replicate 20 1) 0 2).length = 20 :=
  ⟨by simp, by norm_num,
    (generateIrrDistribution_bins (List.replicate 20 1) 0 2 (by simp) (by norm_num)).1⟩

/-- C9: the heat map never reads the floor filter — two filter states that
agree on tower, unit type and risk grade produce identical heat-map data
for every property list, whatever their floor fields are. -/
theorem generateHeatMapData_ignores_floor_filter
    (properties : List Dashboard.PropertyUnit) (f1 f2 : Dashboard.FilterState)
    (ht : f1.tower = f2.tower) (hu : f1.unitType = f2.unitType)
    (hr : f1.riskGrade = f2.riskGrade) :
    Dashboard.generateHeatMapData properties f1 =
      Dashboard.generateHeatMapData properties f2 := by
  obtain ⟨t1, fl1, u1, r1⟩ := f1
  obtain ⟨t2, fl2, u2, r2⟩ := f2
  cases ht
  cases hu
  cases hr
  rfl

/-- Instantiation of floor-filter independence: selecting floor "6" leaves
the heat map unchanged. -/
theorem generateHeatMapData_ignores_floor_filter_witness :
    allFilters.tower = floorFilters.tower ∧
    allFilters.unitType = floorFilters.unitType ∧
    allFilters.riskGrade = floorFilters.riskGrade ∧
    Dashboard.generateHeatMapData [sampleUnit] allFilters =
      Dashboard.generateHeatMapData [sampleUnit] floorFilters :=
  ⟨rfl, rfl, rfl,
    generateHeatMapData_ignores_floor_filter [sampleUnit] allFilters floorFilters
      rfl rfl rfl⟩

/-- C10: every heat-map cell is either the cell of the unit found at its
(floor, position) slot after filtering — value 100 for grade "green", 50
for "amber", 0 otherwise — or, when no unit occupies the slot, a cell whose
value, riskGrade, meanIrr and var5 are all null; hence every cell value is
one of 100, 50, 0 or null. -/
theorem generateHeatMapData_cell_values
    (properties : List Dashboard.PropertyUnit) (filters : Dashboard.FilterState)
    (row : Dashboard.FloorRow) (cell : Dashboard.HeatCell)
    (hrow : row ∈ Dashboard.generateHeatMapData properties filters)
    (hcell : cell ∈ row.units) :
    ((∃ position u,
        Dashboard.findUnit (Dashboard.filteredProperties properties filters)
          row.floor position = some u ∧
        cell = Dashboard.occupiedCell u ∧
        cell.value = some (Dashboard.gradeValue u.risk_grade)) ∨
     (∃ position,
        Dashboard.findUnit (Dashboard.filteredProperties properties filters)
          row.floor position = none ∧
        cell = Dashboard.emptyCell row.floor position ∧
        cell.value = none ∧ cell.riskGrade = none ∧
        cell.meanIrr = none ∧ cell.var5 = none)) ∧
    (cell.value = some 100 ∨ cell.value = some 50 ∨
      cell.value = some 0 ∨ cell.value = none) := by
  rw [Dashboard.generateHeatMapData, List.mem_map] at hrow
  obtain ⟨floor, hfloor, rfl⟩ := hrow
  rw [List.mem_map] at hcell
  obtain ⟨position, hpos, rfl⟩ := hcell
  rw [Dashboard.buildCell]
  rcases hfind : Dashboard.findUnit (Dashboard.filteredProperties properties filters)
      floor position with _ | u
  · exact ⟨Or.inr ⟨position, hfind, rfl, rfl, rfl, rfl, rfl⟩,
      Or.inr (Or.inr (Or.inr rfl))⟩
  · refine ⟨Or.inl ⟨position, u, hfind, rfl, rfl⟩, ?_⟩
    have hval : Dashboard.gradeValue u.risk_grade = 100 ∨
        Dashboard.gradeValue u.risk_grade = 50 ∨
        Dashboard.gradeValue u.risk_grade = 0 := by
      rw [Dashboard.gradeValue]
      split_ifs <;> simp
    rcases hval with h | h | h
    · exact Or.inl (congrArg some h)
    · exact Or.inr (Or.inl (congrArg some h))
    · exact Or.inr (Or.inr (Or.inl (congrArg some h)))

/-- C8: the CSV export is the header row
`trial_index,irr,npv,terminal_value,valid` followed by exactly one row per
trial, so a 5000-trial run exports 5001 lines. -/
theorem export_csv_lines (run : PersistedRun) :
    (exportCsvLines run).head? = some csvHeader ∧
    (exportCsvLines run).length = run.trials.length + 1 ∧
    (run.trials.length = 5000 → (exportCsvLines run).length = 5001) ∧
    export_csv run = String.intercalate "\n" (exportCsvLines run) := by
  refine ⟨rfl, by simp [exportCsvLines], ?_, rfl⟩
  intro h
  simp [exportCsvLines, h]

/-- Instantiation of the CSV-export theorem at a concrete 5000-trial run. -/
theorem export_csv_lines_witness :
    run5000.trials.length = 5000 ∧ (exportCsvLines run5000).length = 5001 := by
  have h : run5000.trials.length = 5000 := List.length_replicate 5000 _
  exact ⟨h, (export_csv_lines run5000).2.2.1 h⟩

/-- Batching upserts over an appended list splits into two batches. -/
theorem upsertAll_append (s : MetricStore) (a b : List MarketMetric) :
    upsertAll s (a ++ b) = upsertAll (upsertAll s a) b :=
  List.foldl_append upsert s a b

/-- Peeling one record off `lastWith`: a later record with the key wins. -/
theorem lastWith_cons (m : MarketMetric) (rest : List MarketMetric) (k : MetricKey) :
    lastWith (m :: rest) k =
      (lastWith rest k).or (if m.key == k then some m else none) := by
  rw [lastWith, lastWith, List.reverse_cons, List.find?_append]
  cases h : (m.key == k) <;> simp [List.find?_cons, h]

/-- The record stored at key `k` after a batch of upserts is the last
record of the batch with that key, the prior store value otherwise. -/
theorem upsertAll_apply (ms : List MarketMetric) :
    ∀ (s : MetricStore) (k : MetricKey),
      upsertAll s ms k = (lastWith ms k).elim (s k) some := by
  induction ms with
  | nil =>
    intro s k
    simp [upsertAll, lastWith]
  | cons m rest ih =>
    intro s k
    have hstep : upsertAll s (m :: rest) = upsertAll (upsert s m) rest := rfl
    rw [hstep, ih, lastWith_cons]
    cases hl : lastWith rest k with
    | some r => simp
    | none =>
      by_cases h : k = m.key
      · have h2 : m.key == k := by simp [h]
        simp [upsert, h, h2]
      · have h2 : ¬(m.key = k) := fun e => h e.symm
        simp [upsert, h, h2]

/-- Replaying the same batch of upserts twice stores the same records. -/
theorem lastWith_append_self (ms : List MarketMetric) (k : MetricKey) :
    lastWith (ms ++ ms) k = lastWith ms k := by
  rw [lastWith, lastWith, List.reverse_append, List.find?_append, Option.or_self]

/-- The store produced by the ingestion fold is the starting store with all
successful rows upserted in order. -/
theorem ingest_foldl_store (region : String) (dr : DateRange) (sources : List Source) :
    ∀ acc : IngestReport × MetricStore,
      (sources.foldl (RiskDataIngestor.ingestOne region dr) acc).2 =
        upsertAll acc.2 (RiskDataIngestor.successRows sources region dr) := by
  induction sources with
  | nil =>
    intro acc
    rfl
  | cons src rest ih =>
    intro acc
    have hstep : (src :: rest).foldl (RiskDataIngestor.ingestOne region dr) acc =
        rest.foldl (RiskDataIngestor.ingestOne region dr)
          (RiskDataIngestor.ingestOne region dr acc src) := rfl
    rw [hstep, ih]
    cases hf : src.fetch region dr with
    | error e =>
      simp [RiskDataIngestor.ingestOne, RiskDataIngestor.successRows, hf]
    | ok obs =>
      simp [RiskDataIngestor.ingestOne, RiskDataIngestor.successRows, hf,
        upsertAll_append]

/-- The report produced by the ingestion fold records exactly the failing
sources as failures and the succeeding sources as successes, in order. -/
theorem ingest_foldl_report (region : String) (dr : DateRange) (sources : List Source) :
    ∀ acc : IngestReport × MetricStore,
      (sources.foldl (RiskDataIngestor.ingestOne region dr) acc).1.failures =
        acc.1.failures ++ RiskDataIngestor.failuresOf sources region dr ∧
      (sources.foldl (RiskDataIngestor.ingestOne region dr) acc).1.successes =
        acc.1.successes ++ RiskDataIngestor.successesOf sources region dr := by
  induction sources with
  | nil =>
    intro acc
    simp [RiskDataIngestor.failuresOf, RiskDataIngestor.successesOf]
  | cons src rest ih =>
    intro acc
    have hstep : (src :: rest).foldl (RiskDataIngestor.ingestOne region dr) acc =
        rest.foldl (RiskDataIngestor.ingestOne region dr)
          (RiskDataIngestor.ingestOne region dr acc src) := rfl
    rw [hstep]
    rcases ih (RiskDataIngestor.ingestOne region dr acc src) with ⟨ihf, ihs⟩
    rw [ihf, ihs]
    cases hf : src.fetch region dr with
    | error e =>
      simp [RiskDataIngestor.ingestOne, RiskDataIngestor.failuresOf,
        RiskDataIngestor.successesOf, hf]
    | ok obs =>
      simp [RiskDataIngestor.ingestOne, RiskDataIngestor.failuresOf,
        RiskDataIngestor.successesOf, hf]

/-- C5: ingesting the same sources, region and date range twice leaves
MetricStore in exactly the same state as ingesting them once — the upserts
are keyed by (source, region, metric_type, observed_at) and replaying them
overwrites rather than duplicates. -/
theorem ingest_idempotent (sources : List Source) (region : String)
    (dr : DateRange) (s : MetricStore) :
    (RiskDataIngestor.ingest sources region dr
        (RiskDataIngestor.ingest sources region dr s).2).2 =
      (RiskDataIngestor.ingest sources region dr s).2 := by
  rw [RiskDataIngestor.ingest, RiskDataIngestor.ingest,
    ingest_foldl_store, ingest_foldl_store, ← upsertAll_append]
  funext k
  rw [upsertAll_apply, upsertAll_apply, lastWith_append_self]

/-- C7: a failing source is recorded as a per-source failure and does not
abort the other sources — the report lists exactly the failing and
succeeding sources and the store receives exactly the successful rows; in
the concrete two-source scenario (one timing out, one succeeding) the
report has one failure and one success and the store holds exactly the
successful source's rows. -/
theorem ingest_failure_isolation :
    (∀ (sources : List Source) (region : String) (dr : DateRange) (s : MetricStore),
      (RiskDataIngestor.ingest sources region dr s).1.failures =
        RiskDataIngestor.failuresOf sources region dr ∧
      (RiskDataIngestor.ingest sources region dr s).1.successes =
        RiskDataIngestor.successesOf sources region dr ∧
      (RiskDataIngestor.ingest sources region dr s).2 =
        upsertAll s (RiskDataIngestor.successRows sources region dr)) ∧
    (RiskDataIngestor.ingest [srcTimeout, srcOk] "DXB" sampleRange emptyStore).1 =
      { successes := ["dxb_str"], failures := [("dxb_rents", "timeout")] } ∧
    (RiskDataIngestor.ingest [srcTimeout, srcOk] "DXB" sampleRange emptyStore).2 =
      upsertAll emptyStore (okObservations.map (normalizeObs srcOk)) := by
  refine ⟨?_, rfl, rfl⟩
  intro sources region dr s
  have h1 := ingest_foldl_report region dr sources ⟨⟨[], []⟩, s⟩
  have h2 := ingest_foldl_store region dr sources ⟨⟨[], []⟩, s⟩
  exact ⟨by simpa using h1.1, by simpa using h1.2, h2⟩

/-- A default value plays no role for an in-range read. -/
theorem getD_default_eq (xs : List ℚ) {i : ℕ} (h : i < xs.length) (d : ℚ) :
    xs.getD i d = xs.getD i 0 := by
  rw [List.getD_eq_getElem?_getD, List.getD_eq_getElem?_getD,
    List.getElem?_eq_getElem h]
  simp

/-- An out-of-range read returns the default. -/
theorem getD_out (xs : List ℚ) (i : ℕ) (h : xs.length ≤ i) (d : ℚ) :
    xs.getD i d = d := by
  rw [List.getD_eq_getElem?_getD, List.getElem?_eq_none h]
  simp

/-- Reads of a sorted list are monotone in the index. -/
theorem sorted_getD_mono (xs : List ℚ) (hs : xs.Sorted (· ≤ ·)) {i j : ℕ}
    (hij : i ≤ j) (hj : j < xs.length) : xs.getD i 0 ≤ xs.getD j 0 := by
  have hi : i < xs.length := lt_of_le_of_lt hij hj
  rw [List.getD_eq_getElem?_getD, List.getD_eq_getElem?_getD,
    List.getElem?_eq_getElem hi, List.getElem?_eq_getElem hj]
  simp only [Option.getD_some]
  have h := hs.rel_get_of_le (a := ⟨i, hi⟩) (b := ⟨j, hj⟩) hij
  simpa [List.get_eq_getElem] using h

/-- Unfolding of the interpolation at a fractional index. -/
theorem interpAt_def (xs : List ℚ) (pos : ℚ) :
    MonteCarloIRRAgent.interpAt xs pos =
      xs.getD (⌊pos⌋).toNat 0 +
        (pos - ((⌊pos⌋).toNat : ℚ)) *
          (xs.getD ((⌊pos⌋).toNat + 1) (xs.getD (⌊pos⌋).toNat 0) -
            xs.getD (⌊pos⌋).toNat 0) := rfl

/-- Linear interpolation over a sorted sample is monotone in the
fractional index, within the sample's index range. -/
theorem interpAt_mono (xs : List ℚ) (hs : xs.Sorted (· ≤ ·)) {a b : ℚ}
    (ha : 0 ≤ a) (hab : a ≤ b) (hb : b ≤ (xs.length : ℚ) - 1) :
    MonteCarloIRRAgent.interpAt xs a ≤ MonteCarloIRRAgent.interpAt xs b := by
  have hb0 : 0 ≤ b := le_trans ha hab
  have hn1 : 1 ≤ xs.length := by
    rcases Nat.eq_zero_or_pos xs.length with h0 | h1
    · exfalso
      rw [h0] at hb
      push_cast at hb
      linarith
    · exact h1
  have hfa : (0 : ℤ) ≤ ⌊a⌋ := Int.floor_nonneg.mpr ha
  have hfb : (0 : ℤ) ≤ ⌊b⌋ := Int.floor_nonneg.mpr hb0
  set i := (⌊a⌋).toNat with hi_def
  set j := (⌊b⌋).toNat with hj_def
  have hiz : (i : ℤ) = ⌊a⌋ := by rw [hi_def]; exact Int.toNat_of_nonneg hfa
  have hjz : (j : ℤ) = ⌊b⌋ := by rw [hj_def]; exact Int.toNat_of_nonneg hfb
  have hia : (i : ℚ) ≤ a := by
    have h := Int.floor_le a
    rw [← hiz] at h
    exact_mod_cast h
  have hai : a < (i : ℚ) + 1 := by
    have h := Int.lt_floor_add_one a
    rw [← hiz] at h
    exact_mod_cast h
  have hjb : (j : ℚ) ≤ b := by
    have h := Int.floor_le b
    rw [← hjz] at h
    exact_mod_cast h
  have hij : i ≤ j := by
    rw [hi_def, hj_def]
    exact Int.toNat_le_toNat (Int.floor_mono hab)
  have hjlt : j < xs.length := by
    have h1 : ⌊b⌋ ≤ ⌊((xs.length : ℚ) - 1)⌋ := Int.floor_mono hb
    have h2 : ((xs.length : ℚ) - 1) = (((xs.length : ℤ) - 1 : ℤ) : ℚ) := by
      push_cast
      ring
    rw [h2, Int.floor_intCast] at h1
    have h3 : j ≤ ((xs.length : ℤ) - 1).toNat := by
      rw [hj_def]
      exact Int.toNat_le_toNat h1
    omega
  have hilt : i < xs.length := lt_of_le_of_lt hij hjlt
  rw [interpAt_def, interpAt_def, ← hi_def, ← hj_def]
  rcases eq_or_lt_of_le hij with heq | hlt
  · rw [← heq]
    by_cases hrange : i + 1 < xs.length
    · rw [getD_default_eq xs hrange]
      have hle : xs.getD i 0 ≤ xs.getD (i + 1) 0 :=
        sorted_getD_mono xs hs (Nat.le_succ i) hrange
      have hmul := mul_le_mul_of_nonneg_right
        (sub_le_sub_right hab ((i : ℚ))) (sub_nonneg.mpr hle)
      linarith
    · rw [getD_out xs (i + 1) (by omega)]
      simp
  · have hi1j : i + 1 ≤ j := hlt
    have hi1lt : i + 1 < xs.length := lt_of_le_of_lt hi1j hjlt
    have step1 : xs.getD i 0 +
        (a - (i : ℚ)) * (xs.getD (i + 1) (xs.getD i 0) - xs.getD i 0) ≤
          xs.getD (i + 1) 0 := by
      rw [getD_default_eq xs hi1lt]
      have hle : xs.getD i 0 ≤ xs.getD (i + 1) 0 :=
        sorted_getD_mono xs hs (Nat.le_succ i) hi1lt
      have ha1 : a - (i : ℚ) ≤ 1 := by linarith
      have hmul := mul_le_mul_of_nonneg_right ha1 (sub_nonneg.mpr hle)
      linarith
    have step2 : xs.getD (i + 1) 0 ≤ xs.getD j 0 :=
      sorted_getD_mono xs hs hi1j hjlt
    have step3 : xs.getD j 0 ≤ xs.getD j 0 +
        (b - (j : ℚ)) * (xs.getD (j + 1) (xs.getD j 0) - xs.getD j 0) := by
      by_cases hrange : j + 1 < xs.length
      · rw [getD_default_eq xs hrange]
        have hle : xs.getD j 0 ≤ xs.getD (j + 1) 0 :=
          sorted_getD_mono xs hs (Nat.le_succ j) hrange
        have hmul := mul_nonneg (by linarith : (0 : ℚ) ≤ b - (j : ℚ))
          (sub_nonneg.mpr hle)
        linarith
      · rw [getD_out xs (j + 1) (by omega)]
        simp
    linarith

/-- Percentiles by linear interpolation over a sorted sample are monotone
in the requested percentile. -/
theorem percentileOf_mono (xs : List ℚ) (hs : xs.Sorted (· ≤ ·)) {p q : ℚ}
    (hp : 0 ≤ p) (hq : q ≤ 1) (hpq : p ≤ q) :
    MonteCarloIRRAgent.percentileOf xs p ≤ MonteCarloIRRAgent.percentileOf xs q := by
  rcases xs with _ | ⟨x, l⟩
  · simp [MonteCarloIRRAgent.percentileOf, MonteCarloIRRAgent.interpAt]
  · have hN : (0 : ℚ) ≤ ((x :: l).length : ℚ) - 1 := by
      push_cast [List.length_cons]
      linarith [Nat.cast_nonneg (α := ℚ) l.length]
    rw [MonteCarloIRRAgent.percentileOf, MonteCarloIRRAgent.percentileOf]
    apply interpAt_mono _ hs
    · exact mul_nonneg hp hN
    · exact mul_le_mul_of_nonneg_right hpq hN
    · calc q * (((x :: l).length : ℚ) - 1)
          ≤ 1 * (((x :: l).length : ℚ) - 1) := mul_le_mul_of_nonneg_right hq hN
        _ = ((x :: l).length : ℚ) - 1 := one_mul _

/-- The sorted valid-IRR list is sorted. -/
theorem sortedIrrs_sorted (rs : List MonteCarloIRRAgent.TrialResult) :
    (MonteCarloIRRAgent.sortedIrrs rs).Sorted (· ≤ ·) :=
  List.sorted_insertionSort _ _

/-- C6: for every run aggregated from at least one valid trial, the
percentiles computed by linear interpolation over the sorted valid-trial
IRR list are ordered: p5 ≤ p25 ≤ p50 ≤ p75 ≤ p95. -/
theorem aggregate_percentiles_ordered (trial_count : ℕ)
    (rs : List MonteCarloIRRAgent.TrialResult)
    (_hvalid : 0 < (MonteCarloIRRAgent.validIrrs rs).length) :
    (MonteCarloIRRAgent.aggregate trial_count rs).percentiles.p5 ≤
      (MonteCarloIRRAgent.aggregate trial_count rs).percentiles.p25 ∧
    (MonteCarloIRRAgent.aggregate trial_count rs).percentiles.p25 ≤
      (MonteCarloIRRAgent.aggregate trial_count rs).percentiles.p50 ∧
    (MonteCarloIRRAgent.aggregate trial_count rs).percentiles.p50 ≤
      (MonteCarloIRRAgent.aggregate trial_count rs).percentiles.p75 ∧
    (MonteCarloIRRAgent.aggregate trial_count rs).percentiles.p75 ≤
      (MonteCarloIRRAgent.aggregate trial_count rs).percentiles.p95 := by
  have hs := sortedIrrs_sorted rs
  refine ⟨?_, ?_, ?_, ?_⟩ <;>
    exact percentileOf_mono _ hs (by norm_num) (by norm_num) (by norm_num)

/-- Instantiation of the percentile-ordering theorem at a one-trial run. -/
theorem aggregate_percentiles_ordered_witness :
    0 < (MonteCarloIRRAgent.validIrrs [MonteCarloIRRAgent.TrialResult.valid 0]).length ∧
    (MonteCarloIRRAgent.aggregate 1 [MonteCarloIRRAgent.TrialResult.valid 0]).percentiles.p5 ≤
      (MonteCarloIRRAgent.aggregate 1 [MonteCarloIRRAgent.TrialResult.valid 0]).percentiles.p95 := by
  have h : 0 < (MonteCarloIRRAgent.validIrrs [MonteCarloIRRAgent.TrialResult.valid 0]).length := by
    decide
  have hall := aggregate_percentiles_ordered 1 [MonteCarloIRRAgent.TrialResult.valid 0] h
  exact ⟨h, le_trans hall.1 (le_trans hall.2.1 (le_trans hall.2.2.1 hall.2.2.2))⟩

/-- Permuting the trial outcomes permutes the valid IRRs. -/
theorem validIrrs_perm {rs1 rs2 : List MonteCarloIRRAgent.TrialResult}
    (h : rs1.Perm rs2) :
    (MonteCarloIRRAgent.validIrrs rs1).Perm (MonteCarloIRRAgent.validIrrs rs2) :=
  h.filterMap _

/-- The sorted valid-IRR list is invariant under permutation of the trial
outcomes. -/
theorem sortedIrrs_perm_eq {rs1 rs2 : List MonteCarloIRRAgent.TrialResult}
    (h : rs1.Perm rs2) :
    MonteCarloIRRAgent.sortedIrrs rs1 = MonteCarloIRRAgent.sortedIrrs rs2 := by
  apply List.eq_of_perm_of_sorted _ (sortedIrrs_sorted rs1) (sortedIrrs_sorted rs2)
  exact (List.perm_insertionSort _ _).trans
    ((validIrrs_perm h).trans (List.perm_insertionSort _ _).symm)

/-- The aggregation step is invariant under permutation of the trial
outcomes: counts, sums and the sorted list ignore arrival order. -/
theorem aggregate_perm (trial_count : ℕ)
    {rs1 rs2 : List MonteCarloIRRAgent.TrialResult} (h : rs1.Perm rs2) :
    MonteCarloIRRAgent.aggregate trial_count rs1 =
      MonteCarloIRRAgent.aggregate trial_count rs2 := by
  have hxs := sortedIrrs_perm_eq h
  have hneg : MonteCarloIRRAgent.negativeCount rs1 =
      MonteCarloIRRAgent.negativeCount rs2 := h.countP_eq _
  have hinv : MonteCarloIRRAgent.invalidTrialCount rs1 =
      MonteCarloIRRAgent.invalidTrialCount rs2 := h.countP_eq _
  rw [MonteCarloIRRAgent.aggregate, MonteCarloIRRAgent.aggregate,
    hxs, hneg, hinv]

/-- C4: two runs with identical (model, trial_count, seed) produce
identical SimulationRun aggregates whatever order the trials of
`[0, trial_count)` complete in — every trial's stream is derived only from
(seed, property_id, trial_index) and the reduction is order-invariant. -/
theorem run_deterministic (m : CashFlowModel) (trial_count seed : ℕ)
    (order1 order2 : List ℕ)
    (h1 : order1.Perm (List.range trial_count))
    (h2 : order2.Perm (List.range trial_count)) :
    MonteCarloIRRAgent.run m trial_count seed order1 =
      MonteCarloIRRAgent.run m trial_count seed order2 :=
  aggregate_perm trial_count ((h1.trans h2.symm).map _)

/-- Instantiation of determinism for a two-trial run completed in the two
possible orders. -/
theorem run_deterministic_witness :
    ([0, 1] : List ℕ).Perm (List.range 2) ∧
    ([1, 0] : List ℕ).Perm (List.range 2) ∧
    MonteCarloIRRAgent.run sampleModel 2 12345 [0, 1] =
      MonteCarloIRRAgent.run sampleModel 2 12345 [1, 0] :=
  ⟨by decide, by decide,
    run_deterministic sampleModel 2 12345 [0, 1] [1, 0] (by decide) (by decide)⟩

/-- Instantiation of the cell-value theorem at a concrete one-unit building. -/
theorem generateHeatMapData_cell_values_witness :
    (Dashboard.occupiedCell sampleUnit).value = some 100 ∨
    (Dashboard.occupiedCell sampleUnit).value = some 50 ∨
    (Dashboard.occupiedCell sampleUnit).value = some 0 ∨
    (Dashboard.occupiedCell sampleUnit).value = none :=
  (generateHeatMapData_cell_values [sampleUnit] allFilters
      { floor := 6, units := [Dashboard.occupiedCell sampleUnit] }
      (Dashboard.occupiedCell sampleUnit)
      (by rw [Dashboard.generateHeatMapData]; exact List.mem_singleton.mpr rfl)
      (List.mem_singleton.mpr rfl)).2
